import Mathlib

/-
  Shallow embedding of the data pipeline of the tumor-target-db dashboard
  (src/tumor-target-db/src/App.tsx): dataset parsing, cancer-type filtering,
  gene search, numeric sorting, pagination, and the report-content handling.

  Conventions of the embedding:
  * Runtime record fields are strings: every record originates from parseTSV,
    which produces string fields (the TypeScript interfaces declare numbers,
    but the value produced at runtime by the cast on line 247 is a string);
    numeric coercion happens at use sites via Number(...), embedded as jsNum.
  * JavaScript numbers are embedded as Option Rat: some q is a finite decimal
    value, none is NaN.  jsNum implements the Number(string) coercion on the
    finite decimal fragment (optional sign, digits, fraction, exponent; empty
    or all-whitespace input is 0); strings outside this fragment map to none.
  * JS Map is embedded as an association list with insertion-order semantics:
    set on a fresh key appends, set on an existing key updates in place, and
    values() iterates in key-first-insertion order.
  * Array.prototype.sort with a consistent comparator is required by the JS
    spec to be a stable sort, so its result is the unique stable order; it is
    embedded as a stable insertion sort on the comparator-induced order.
-/

namespace TumorTargetDb

/-! ## JavaScript string and number primitives -/

/-- Whitespace recognised by the trim embedding (the fragment occurring in
    the data: space, tab, newline, carriage return). -/
def isJsWs (c : Char) : Bool := c = ' ' ∨ c = '\t' ∨ c = '\n' ∨ c = '\r'

/-- Drop whitespace from both ends of a character list. -/
def trimChars (l : List Char) : List Char :=
  ((l.dropWhile isJsWs).reverse.dropWhile isJsWs).reverse

/-- Embeds String.prototype.trim (whitespace fragment used by the data). -/
def jsTrim (s : String) : String := String.mk (trimChars s.toList)

/-- ASCII uppercase of one character. -/
def upperChar (c : Char) : Char :=
  if 'a' ≤ c ∧ c ≤ 'z' then Char.ofNat (c.toNat - 32) else c

/-- Embeds String.prototype.toUpperCase on the ASCII fragment. -/
def jsToUpper (s : String) : String := String.mk (s.toList.map upperChar)

/-- Split a character list on a separator character; mirrors the JavaScript
    String.prototype.split with a one-character separator (the only splits
    the source performs), including the singleton result on empty input. -/
def splitOnChar (sep : Char) : List Char → List (List Char)
  | [] => [[]]
  | c :: cs =>
    if c = sep then [] :: splitOnChar sep cs
    else
      match splitOnChar sep cs with
      | [] => [[c]]
      | h :: t => (c :: h) :: t

/-- Embeds text.split(sep) for a one-character separator. -/
def jsSplit (sep : Char) (s : String) : List String :=
  (splitOnChar sep s.toList).map String.mk

/-- Value of a digit run, most significant first. -/
def digitsVal (l : List Char) : Nat := l.foldl (fun a c => a * 10 + (c.toNat - 48)) 0

/-- A finite decimal number man / 10 ^ exp, the exact value of every numeric
    literal the Number coercion accepts.  Kept unnormalised so that all the
    operations of the embedding are plain integer arithmetic. -/
structure DecNum where
  man : Int
  exp : Nat
deriving DecidableEq, Repr

/-- The rational value of a decimal number; used only in statements. -/
def DecNum.val (x : DecNum) : ℚ := (x.man : ℚ) / 10 ^ x.exp

/-- Numeric less-or-equal on decimal numbers by cross multiplication. -/
def decLeB (a b : DecNum) : Bool := decide (a.man * 10 ^ b.exp ≤ b.man * 10 ^ a.exp)

/-- Numeric strict less-than on decimal numbers by cross multiplication. -/
def decLtB (a b : DecNum) : Bool := decide (a.man * 10 ^ b.exp < b.man * 10 ^ a.exp)

/-- Optional exponent tail of a JS numeric literal: accepts the empty rest or
    e / E followed by an optionally signed digit run; anything else is NaN. -/
def expTail (base : DecNum) : List Char → Option DecNum
  | [] => some base
  | c :: cs =>
    if c = 'e' ∨ c = 'E' then
      match cs with
      | [] => none
      | d :: ds =>
        let p : Bool × List Char :=
          if d = '+' then (false, ds) else if d = '-' then (true, ds) else (false, d :: ds)
        if p.2 ≠ [] ∧ p.2.all Char.isDigit then
          some (if p.1 then { man := base.man, exp := base.exp + digitsVal p.2 }
                else { man := base.man * 10 ^ digitsVal p.2, exp := base.exp })
        else none
    else none

/-- Unsigned part of a JS numeric literal: digits, optional fraction, optional
    exponent; a bare dot or no digits at all is NaN. -/
def unsignedVal (l : List Char) : Option DecNum :=
  let ip := l.takeWhile Char.isDigit
  let r1 := l.dropWhile Char.isDigit
  match r1 with
  | '.' :: r2 =>
    let fp := r2.takeWhile Char.isDigit
    let r3 := r2.dropWhile Char.isDigit
    if ip.isEmpty ∧ fp.isEmpty then none
    else expTail
      { man := (digitsVal ip * 10 ^ fp.length + digitsVal fp : Nat), exp := fp.length } r3
  | _ => if ip.isEmpty then none else expTail { man := (digitsVal ip : Nat), exp := 0 } r1

/-- Embeds the JavaScript Number(string) coercion on the finite decimal
    fragment; none stands for NaN.  The whole (trimmed) string must be a
    decimal literal; empty or all-whitespace input coerces to 0. -/
def jsNum (s : String) : Option DecNum :=
  match (jsTrim s).toList with
  | [] => some { man := 0, exp := 0 }
  | '+' :: r => unsignedVal r
  | '-' :: r => (unsignedVal r).map (fun x => { man := -x.man, exp := x.exp })
  | l => unsignedVal l

/-- Embeds the idiom Number(x) or-else 0 of the source (sortVal, stats):
    NaN is collapsed to 0.  Number(x) can only be falsy as NaN or 0, and both
    map to 0 here, so getD is extensionally the or-else. -/
def toNum (s : String) : DecNum := (jsNum s).getD { man := 0, exp := 0 }

/-- JS strict greater-than on numbers: false whenever either side is NaN. -/
def jsGtB (a b : Option DecNum) : Bool :=
  match a, b with
  | some x, some y => decLtB y x
  | _, _ => false

/-- JS greater-or-equal on numbers: false whenever either side is NaN. -/
def jsGeB (a b : Option DecNum) : Bool :=
  match a, b with
  | some x, some y => decLeB y x
  | _, _ => false

/-! ## Data model (App.tsx lines 24-47) -/

/-- A selectivity row.  Field names follow the GeneSelectivity interface; the
    runtime values are the strings produced by parseTSV. -/
structure GeneSelectivity where
  gene_name : String
  S_active_log2FC_max : String
  E_inactive_expression_max : String
  active_count : String
  max_tumor_expression : String
  active_projects : String
  Selection_Score : String
  active_project : String
deriving DecidableEq, Repr, Inhabited

/-- A differential-expression (CPTAC) row.  geneName embeds the column whose
    TypeScript key is the two-word string Gene name, and pValueAdjusted the
    column keyed p-value adjusted. -/
structure CptacData where
  Cancer : String
  Gene : String
  geneName : String
  pValueAdjusted : String
  logFC : String
deriving DecidableEq, Repr, Inhabited

/-- App.tsx line 49. -/
def ALL_CANCERS : String := "All Cancers"

/-- App.tsx line 64. -/
def PAGE_SIZE : Nat := 50

/-! ## Dataset loader (App.tsx lines 66-75 and 241-252) -/

/-- Embeds parseTSV: trim the text, split into lines, split the first line on
    tab into header names, and turn every further line into a record pairing
    each header positionally with the tab-separated value at its index,
    defaulting to the empty string.  A record is embedded as the list of
    header-value pairs in header order (the JS object keyed by header). -/
def parseTSV (text : String) : List (List (String × String)) :=
  let lines := jsSplit '\n' (jsTrim text)
  let headers := jsSplit '\t' (lines.headD "")
  (lines.drop 1).map (fun line =>
    let values := jsSplit '\t' line
    headers.mapIdx (fun i h => (h, values.getD i "")))

/-- Modelled from the spec: generic delimiter-separated parsing as section 4.1
    words it (first line a header row; every further line split on the same
    delimiter; fields positional; out-of-range fields default to empty).
    Written independently of parseTSV to compare the two. -/
def specParseDelimited (delim : Char) (text : String) : List (List (String × String)) :=
  let lines := jsSplit '\n' (jsTrim text)
  let headers := jsSplit delim (lines.headD "")
  (lines.drop 1).map (fun line =>
    let values := jsSplit delim line
    headers.mapIdx (fun i h => (h, values.getD i "")))

/-- Embeds the data-loading effect (lines 241-252): all three fetched texts,
    the comma-named selectivity file included, are handed to the same
    tab-splitting parseTSV. -/
def loadDatasets (selText tnText cpText : String) :
    List (List (String × String)) × List (List (String × String)) ×
      List (List (String × String)) :=
  (parseTSV selText, parseTSV tnText, parseTSV cpText)

/-! ## Filter engine (App.tsx lines 254-274) -/

/-- The gene map built in the All Cancers branch: a JS Map as an association
    list in key insertion order. -/
abbrev GeneMap := List (String × GeneSelectivity)

/-- Embeds geneMap.get. -/
def mapGet (m : GeneMap) (k : String) : Option (String × GeneSelectivity) :=
  m.find? (fun p => p.1 = k)

/-- Embeds geneMap.set: update in place on an existing key, append otherwise. -/
def mapSet (m : GeneMap) (k : String) (v : GeneSelectivity) : GeneMap :=
  if m.any (fun p => p.1 = k) then m.map (fun p => if p.1 = k then (k, v) else p)
  else m ++ [(k, v)]

/-- One iteration of the forEach on lines 258-263: replace the stored record
    for the gene when the incoming Selection_Score is strictly greater. -/
def buildStep (m : GeneMap) (d : GeneSelectivity) : GeneMap :=
  match mapGet m d.gene_name with
  | none => mapSet m d.gene_name d
  | some e =>
    if jsGtB (jsNum d.Selection_Score) (jsNum e.2.Selection_Score) then
      mapSet m d.gene_name d
    else m

/-- The whole forEach of lines 258-263. -/
def buildGeneMap (l : List GeneSelectivity) : GeneMap := l.foldl buildStep []

/-- The replacement test of line 260, named for the grouping lemmas. -/
def better (d e : GeneSelectivity) : Bool :=
  jsGtB (jsNum d.Selection_Score) (jsNum e.Selection_Score)

/-- Left fold of the strict-replacement maximum, as the forEach performs it
    on the rows of one gene. -/
def pickMax (b : GeneSelectivity) : List GeneSelectivity → GeneSelectivity
  | [] => b
  | d :: l => pickMax (if better d b then d else b) l

/-- The rows of one gene, in input order. -/
def rowsFor (l : List GeneSelectivity) (g : String) : List GeneSelectivity :=
  l.filter (fun d => d.gene_name = g)

/-- The record the gene map ends up holding for a gene, if any. -/
def groupPick (l : List GeneSelectivity) (g : String) : Option GeneSelectivity :=
  match rowsFor l g with
  | [] => none
  | h :: t => some (pickMax h t)

/-- Invariant tying the gene map to the processed rows: keys are distinct and
    every lookup returns the strict-replacement maximum of the rows of that
    gene. -/
def MapInv (l : List GeneSelectivity) (m : GeneMap) : Prop :=
  (m.map Prod.fst).Nodup ∧
  ∀ k, mapGet m k = (groupPick l k).map (fun v => (k, v))

/-- Embeds filteredSelectivity (lines 254-267). -/
def filteredSelectivity (selectivityData : List GeneSelectivity)
    (selectedCancer : String) : List GeneSelectivity :=
  if selectedCancer = ALL_CANCERS then (buildGeneMap selectivityData).map Prod.snd
  else selectivityData.filter (fun d => d.active_project = selectedCancer)

/-- Embeds filteredCptac (lines 269-274). -/
def filteredCptac (cptacData : List CptacData) (selectedCancer : String) :
    List CptacData :=
  if selectedCancer = ALL_CANCERS then cptacData
  else cptacData.filter (fun d => d.Cancer = selectedCancer)

/-! ## Sort engine (App.tsx lines 206, 276-284, 558-561) -/

inductive SortDir where
  | asc
  | desc
deriving DecidableEq, Repr, Inhabited

structure SortConfig where
  key : String
  dir : SortDir
deriving DecidableEq, Repr, Inhabited

/-- The initial sortConfig state of line 206. -/
def initialSortConfig : SortConfig := { key := "Selection_Score", dir := SortDir.desc }

/-- Embeds the indexing a[sortConfig.key]: the named field for the eight
    interface fields, otherwise undefined (which Number maps to NaN, and the
    or-else maps to 0, the same as the empty string here). -/
def getField (d : GeneSelectivity) (key : String) : String :=
  if key = "gene_name" then d.gene_name
  else if key = "S_active_log2FC_max" then d.S_active_log2FC_max
  else if key = "E_inactive_expression_max" then d.E_inactive_expression_max
  else if key = "active_count" then d.active_count
  else if key = "max_tumor_expression" then d.max_tumor_expression
  else if key = "active_projects" then d.active_projects
  else if key = "Selection_Score" then d.Selection_Score
  else if key = "active_project" then d.active_project
  else ""

/-- The numeric sort value Number(a[key]) or-else 0 of lines 279-280. -/
def sortVal (key : String) (d : GeneSelectivity) : DecNum := toNum (getField d key)

/-- The comparator of line 281 as a should-precede-or-tie test: the comparator
    bVal - aVal (desc) or aVal - bVal (asc) is nonpositive. -/
def cmpLe (cfg : SortConfig) (a b : GeneSelectivity) : Bool :=
  if cfg.dir = SortDir.desc then decLeB (sortVal cfg.key b) (sortVal cfg.key a)
  else decLeB (sortVal cfg.key a) (sortVal cfg.key b)

/-- Insertion into a sorted list, placing the new element before the first one
    it ties with or precedes (the stable position for a left-to-right fold). -/
def insertLe {α : Type} (le : α → α → Bool) (a : α) : List α → List α
  | [] => [a]
  | b :: l => if le a b then a :: b :: l else b :: insertLe le a l

/-- Stable sort by a should-precede-or-tie test. -/
def sortByLe {α : Type} (le : α → α → Bool) (l : List α) : List α :=
  l.foldr (insertLe le) []

/-- Embeds sortedData (lines 276-284): a stable numeric sort of the filtered
    rows under the active sort configuration. -/
def sortedData (l : List GeneSelectivity) (cfg : SortConfig) : List GeneSelectivity :=
  sortByLe (cmpLe cfg) l

/-- Direction flip used to phrase the toggle behaviour. -/
def flipDir : SortDir → SortDir
  | SortDir.asc => SortDir.desc
  | SortDir.desc => SortDir.asc

/-- The sortConfig updater of line 559: same key while descending flips to
    ascending, anything else lands on the clicked key descending. -/
def nextSortConfig (cfg : SortConfig) (key : String) : SortConfig :=
  { key := key
    dir := if cfg.key = key ∧ cfg.dir = SortDir.desc then SortDir.asc else SortDir.desc }

/-- Direction-flipped configuration, used to phrase the reversal claim. -/
def flipConfig (cfg : SortConfig) : SortConfig := { key := cfg.key, dir := flipDir cfg.dir }

/-! ## Pagination (App.tsx lines 286-290) -/

/-- Embeds totalPages = Math.ceil(length / PAGE_SIZE) on natural lengths. -/
def totalPages (sorted : List GeneSelectivity) : Nat :=
  (sorted.length + PAGE_SIZE - 1) / PAGE_SIZE

/-- Embeds paginatedData: slice [(page-1)*PAGE_SIZE, (page-1)*PAGE_SIZE + PAGE_SIZE). -/
def paginatedData (sorted : List GeneSelectivity) (currentPage : Nat) :
    List GeneSelectivity :=
  (sorted.drop ((currentPage - 1) * PAGE_SIZE)).take PAGE_SIZE

/-! ## UI state and handlers (App.tsx lines 200-228, 310-337, 558-561) -/

/-- The component state touched by the modelled handlers. -/
structure UiState where
  selectedCancer : String
  selectedGene : Option String
  barChartGene : Option String
  currentPage : Nat
  searchQuery : String
  searchError : String
  volcanoSearch : String
  volcanoSearchError : String
  barChartSearch : String
  barChartSearchError : String
  globalSearch : String
  globalSearchResults : Option (Bool × Bool × Bool)
  sortConfig : SortConfig
deriving DecidableEq, Repr, Inhabited

/-- Embeds handleCancerChange (lines 310-323). -/
def handleCancerChange (st : UiState) (cancer : String) : UiState :=
  { st with
    selectedCancer := cancer
    selectedGene := none
    barChartGene := none
    currentPage := 1
    searchQuery := ""
    searchError := ""
    volcanoSearch := ""
    volcanoSearchError := ""
    barChartSearch := ""
    barChartSearchError := ""
    globalSearch := ""
    globalSearchResults := none }

/-- Embeds handleSort (lines 558-561): update the sort configuration and
    reset the page to 1. -/
def handleSort (st : UiState) (key : String) : UiState :=
  { st with sortConfig := nextSortConfig st.sortConfig key, currentPage := 1 }

/-- The inline message set on a table-search miss (line 330). -/
def searchMissMsg : String := "未检索到该基因"

/-- findIndex together with the element found, mirroring the pair of
    sortedData.findIndex and sortedData[index] in handleSearch. -/
def findIdxElem {α : Type} (p : α → Bool) : List α → Option (Nat × α)
  | [] => none
  | a :: l => if p a then some (0, a) else (findIdxElem p l).map (fun x => (x.1 + 1, x.2))

/-- Embeds handleSearch (lines 325-337) over the sorted view it closes over. -/
def handleSearch (sorted : List GeneSelectivity) (st : UiState) : UiState :=
  if jsTrim st.searchQuery = "" then st
  else
    let query := jsToUpper (jsTrim st.searchQuery)
    match findIdxElem (fun d => jsToUpper d.gene_name = query) sorted with
    | none => { st with searchError := searchMissMsg }
    | some (i, d) =>
      { st with
        searchError := ""
        currentPage := i / PAGE_SIZE + 1
        selectedGene := some d.gene_name }

/-! ## Report gateway (App.tsx lines 503-522) -/

/-- The parsed response body as generateReport inspects it: the message of a
    truthy error field when present, and data.data.report when present. -/
structure ReportResponseBody where
  error : Option String
  report : Option String
deriving DecidableEq, Repr

/-- Outcome of the fetch plus res.json() pair: the fetch may reject
    (network error), the body may fail to parse as JSON, or a body is
    delivered along with the HTTP status code. -/
inductive FetchOutcome where
  | networkError (msg : String)
  | jsonError (status : Nat) (msg : String)
  | jsonBody (status : Nat) (body : ReportResponseBody)
deriving DecidableEq, Repr

/-- Embeds the or-else on line 517: an absent or empty report falls back. -/
def reportOrDefault (s : Option String) (dflt : String) : String :=
  match s with
  | some v => if v = "" then dflt else v
  | none => dflt

/-- Embeds the reportContent produced by generateReport from the outcome of
    the request: thrown errors (network, JSON parse, or a truthy error field)
    land in the catch branch as Error-prefixed text; otherwise the report
    text is displayed.  The HTTP status is never consulted. -/
def generateReportContent (outcome : FetchOutcome) : String :=
  match outcome with
  | FetchOutcome.networkError msg => "Error: " ++ msg
  | FetchOutcome.jsonError _ msg => "Error: " ++ msg
  | FetchOutcome.jsonBody _ body =>
    match body.error with
    | some m => "Error: " ++ m
    | none => reportOrDefault body.report "No report generated"

/-! ## Numeric value correspondence -/

theorem decLeB_iff (a b : DecNum) : decLeB a b = true ↔ a.val ≤ b.val := by
  rw [decLeB, decide_eq_true_eq, DecNum.val, DecNum.val,
    div_le_div_iff₀ (by positivity) (by positivity)]
  constructor <;> intro h <;> exact_mod_cast h

theorem decLtB_iff (a b : DecNum) : decLtB a b = true ↔ a.val < b.val := by
  rw [decLtB, decide_eq_true_eq, DecNum.val, DecNum.val,
    div_lt_div_iff₀ (by positivity) (by positivity)]
  constructor <;> intro h <;> exact_mod_cast h

section SortLemmas

variable {α : Type} (le : α → α → Bool)

theorem insertLe_perm (a : α) (l : List α) : List.Perm (insertLe le a l) (a :: l) := by
  induction l with
  | nil => simp [insertLe]
  | cons b t ih =>
    by_cases h : le a b = true
    · simp [insertLe, h]
    · simp only [insertLe, h, if_false, Bool.false_eq_true]
      exact (ih.cons b).trans (List.Perm.swap a b t)

theorem sortByLe_perm (l : List α) : List.Perm (sortByLe le l) l := by
  induction l with
  | nil => simp [sortByLe]
  | cons a t ih => exact (insertLe_perm le a _).trans (ih.cons a)

theorem mem_insertLe {x a : α} {l : List α} :
    x ∈ insertLe le a l ↔ x = a ∨ x ∈ l := by
  rw [(insertLe_perm le a l).mem_iff, List.mem_cons]

theorem pairwise_insertLe
    (htot : ∀ a b, le a b = true ∨ le b a = true)
    (htrans : ∀ a b c, le a b = true → le b c = true → le a c = true)
    (a : α) {l : List α} (hl : l.Pairwise (fun x y => le x y = true)) :
    (insertLe le a l).Pairwise (fun x y => le x y = true) := by
  induction l with
  | nil => simp [insertLe]
  | cons b t ih =>
    rcases List.pairwise_cons.mp hl with ⟨hb, ht⟩
    by_cases h : le a b = true
    · simp only [insertLe, h, if_true]
      refine List.pairwise_cons.mpr ⟨?_, hl⟩
      intro x hx
      rcases List.mem_cons.mp hx with rfl | hx
      · exact h
      · exact htrans a b x h (hb x hx)
    · simp only [insertLe, h, if_false, Bool.false_eq_true]
      refine List.pairwise_cons.mpr ⟨?_, ih ht⟩
      intro x hx
      rcases (mem_insertLe le).mp hx with rfl | hx
      · rcases htot x b with h' | h'
        · exact absurd h' h
        · exact h'
      · exact hb x hx

theorem sortByLe_pairwise
    (htot : ∀ a b, le a b = true ∨ le b a = true)
    (htrans : ∀ a b c, le a b = true → le b c = true → le a c = true)
    (l : List α) : (sortByLe le l).Pairwise (fun x y => le x y = true) := by
  induction l with
  | nil => simp [sortByLe]
  | cons a t ih => exact pairwise_insertLe le htot htrans a ih

theorem filter_insertLe (v : α → ℚ) (hk : ∀ x y, v x = v y → le x y = true)
    (a : α) (l : List α) (k : ℚ) :
    (insertLe le a l).filter (fun x => decide (v x = k)) =
      ((a :: l).filter (fun x => decide (v x = k))) := by
  induction l with
  | nil => rfl
  | cons b t ih =>
    by_cases h : le a b = true
    · simp [insertLe, h]
    · have hne : v a ≠ v b := fun he => h (hk a b he)
      simp only [insertLe, h, if_false, Bool.false_eq_true]
      by_cases hpa : v a = k
      · have hpb : ¬ (v b = k) := fun he => hne (hpa.trans he.symm)
        simp [List.filter_cons, hpa, hpb] at ih ⊢
        simpa [List.filter_cons, hpa] using ih
      · simp only [List.filter_cons]
        rw [ih]
        simp [List.filter_cons, hpa]

theorem filter_sortByLe (v : α → ℚ) (hk : ∀ x y, v x = v y → le x y = true)
    (l : List α) (k : ℚ) :
    (sortByLe le l).filter (fun x => decide (v x = k)) =
      l.filter (fun x => decide (v x = k)) := by
  induction l with
  | nil => simp [sortByLe]
  | cons a t ih =>
    have : sortByLe le (a :: t) = insertLe le a (sortByLe le t) := rfl
    rw [this, filter_insertLe le v hk, List.filter_cons, List.filter_cons, ih]

theorem sorted_unique (v : α → ℚ)
    (hk2 : ∀ x y, le x y = true → le y x = true → v x = v y) :
    ∀ (l₁ l₂ : List α), l₁.Pairwise (fun x y => le x y = true) →
      l₂.Pairwise (fun x y => le x y = true) →
      (∀ k : ℚ, l₁.filter (fun x => decide (v x = k)) =
        l₂.filter (fun x => decide (v x = k))) →
      l₁ = l₂ := by
  intro l₁
  induction l₁ with
  | nil =>
    intro l₂ _ _ hf
    cases l₂ with
    | nil => rfl
    | cons b t₂ =>
      have := hf (v b)
      simp [List.filter_cons] at this
  | cons a t₁ ih =>
    intro l₂ h₁ h₂ hf
    cases l₂ with
    | nil =>
      have := hf (v a)
      simp [List.filter_cons] at this
    | cons b t₂ =>
      have hab : a = b := by
        by_cases hab : a = b
        · exact hab
        · have hamem : a ∈ b :: t₂ := by
            have h1 : a ∈ (b :: t₂).filter (fun x => decide (v x = v a)) := by
              rw [← hf (v a)]
              simp [List.mem_filter]
            exact List.mem_of_mem_filter h1
          have hbmem : b ∈ a :: t₁ := by
            have h1 : b ∈ (a :: t₁).filter (fun x => decide (v x = v b)) := by
              rw [hf (v b)]
              simp [List.mem_filter]
            exact List.mem_of_mem_filter h1
          have hba : le b a = true := by
            rcases List.mem_cons.mp hamem with rfl | hmem
            · exact absurd rfl hab
            · exact (List.pairwise_cons.mp h₂).1 a hmem
          have hlab : le a b = true := by
            rcases List.mem_cons.mp hbmem with rfl | hmem
            · exact absurd rfl (fun h => hab h.symm)
            · exact (List.pairwise_cons.mp h₁).1 b hmem
          have hv : v a = v b := hk2 a b hlab hba
          have := hf (v a)
          simp [List.filter_cons, hv.symm] at this
          exact absurd this.1 hab
      subst hab
      have htail : t₁ = t₂ := by
        refine ih t₂ (List.pairwise_cons.mp h₁).2 (List.pairwise_cons.mp h₂).2 ?_
        intro k
        have hk' := hf k
        by_cases hva : v a = k
        · simp [List.filter_cons, hva] at hk'
          exact hk'
        · simpa [List.filter_cons, hva] using hk'
      rw [htail]

end SortLemmas

theorem cmpLe_total (cfg : SortConfig) (a b : GeneSelectivity) :
    cmpLe cfg a b = true ∨ cmpLe cfg b a = true := by
  rcases cfg with ⟨key, dir⟩
  cases dir <;> simp [cmpLe, decLeB_iff] <;> exact le_total _ _

theorem cmpLe_trans (cfg : SortConfig) (a b c : GeneSelectivity) :
    cmpLe cfg a b = true → cmpLe cfg b c = true → cmpLe cfg a c = true := by
  rcases cfg with ⟨key, dir⟩
  cases dir <;> simp [cmpLe, decLeB_iff] <;> intro h1 h2 <;>
    first
      | exact le_trans h1 h2
      | exact le_trans h2 h1

theorem cmpLe_of_val_eq (cfg : SortConfig) (a b : GeneSelectivity) :
    (sortVal cfg.key a).val = (sortVal cfg.key b).val → cmpLe cfg a b = true := by
  rcases cfg with ⟨key, dir⟩
  intro h
  cases dir <;> simp [cmpLe, decLeB_iff, h.le, h.ge]

theorem cmpLe_antisymm_val (cfg : SortConfig) (a b : GeneSelectivity) :
    cmpLe cfg a b = true → cmpLe cfg b a = true →
    (sortVal cfg.key a).val = (sortVal cfg.key b).val := by
  rcases cfg with ⟨key, dir⟩
  cases dir <;> simp [cmpLe, decLeB_iff] <;> intro h1 h2 <;>
    first
      | exact le_antisymm h1 h2
      | exact le_antisymm h2 h1

/-- C4: the sorted view orders the filtered records by the numeric value of
    the caller-chosen field in the configured direction; unparseable field
    values sort as zero; the default sort key is Selection_Score descending;
    re-invoking the sort with the active key reverses the direction while a
    different key sets that key descending. -/
theorem c4_sort_contract (l : List GeneSelectivity) (cfg : SortConfig) (key : String) :
    List.Perm (sortedData l cfg) l
    ∧ (cfg.dir = SortDir.desc →
        (sortedData l cfg).Pairwise
          (fun a b => (sortVal cfg.key b).val ≤ (sortVal cfg.key a).val))
    ∧ (cfg.dir = SortDir.asc →
        (sortedData l cfg).Pairwise
          (fun a b => (sortVal cfg.key a).val ≤ (sortVal cfg.key b).val))
    ∧ (∀ d : GeneSelectivity, jsNum (getField d cfg.key) = none →
        (sortVal cfg.key d).val = 0)
    ∧ initialSortConfig = { key := "Selection_Score", dir := SortDir.desc }
    ∧ (cfg.key = key → nextSortConfig cfg key = { key := key, dir := flipDir cfg.dir })
    ∧ (cfg.key ≠ key → nextSortConfig cfg key = { key := key, dir := SortDir.desc }) := by
  refine ⟨sortByLe_perm _ l, ?_, ?_, ?_, rfl, ?_, ?_⟩
  · intro hdir
    refine (sortByLe_pairwise (cmpLe cfg) (cmpLe_total cfg) (cmpLe_trans cfg) l).imp ?_
    intro a b hab
    unfold cmpLe at hab
    rw [if_pos hdir] at hab
    exact (decLeB_iff _ _).mp hab
  · intro hdir
    refine (sortByLe_pairwise (cmpLe cfg) (cmpLe_total cfg) (cmpLe_trans cfg) l).imp ?_
    intro a b hab
    unfold cmpLe at hab
    rw [if_neg (by rw [hdir]; exact fun h => SortDir.noConfusion h)] at hab
    exact (decLeB_iff _ _).mp hab
  · intro d h
    simp [sortVal, toNum, h, DecNum.val]
  · intro h
    rcases cfg with ⟨k, dir⟩
    simp only at h
    cases dir <;> simp [nextSortConfig, flipDir, h]
  · intro h
    simp [nextSortConfig, fun hc : cfg.key = key => h hc]

/-- C5: sorting, then sorting with the direction reversed, then sorting with
    the original direction again returns exactly the first sorted sequence. -/
theorem c5_sort_reverse_twice (l : List GeneSelectivity) (cfg : SortConfig) :
    sortedData (sortedData (sortedData l cfg) (flipConfig cfg)) cfg = sortedData l cfg := by
  apply sorted_unique (cmpLe cfg) (fun d => (sortVal cfg.key d).val) (cmpLe_antisymm_val cfg)
  · exact sortByLe_pairwise _ (cmpLe_total cfg) (cmpLe_trans cfg) _
  · exact sortByLe_pairwise _ (cmpLe_total cfg) (cmpLe_trans cfg) _
  · intro k
    rw [sortedData, filter_sortByLe (cmpLe cfg) _ (fun x y h => cmpLe_of_val_eq cfg x y h)]
    rw [sortedData, filter_sortByLe (cmpLe (flipConfig cfg))
      (fun d => (sortVal cfg.key d).val)
      (fun x y h => cmpLe_of_val_eq (flipConfig cfg) x y h)]

/-! ## Gene map lemmas and the All Cancers grouping -/

theorem pickMax_append (d : GeneSelectivity) (t : List GeneSelectivity)
    (b : GeneSelectivity) :
    pickMax b (t ++ [d]) = if better d (pickMax b t) then d else pickMax b t := by
  induction t generalizing b with
  | nil => simp [pickMax]
  | cons c t ih => simp [pickMax, ih]

theorem pickMax_mem (t : List GeneSelectivity) (b : GeneSelectivity) :
    pickMax b t ∈ b :: t := by
  induction t generalizing b with
  | nil => simp [pickMax]
  | cons d t ih =>
    by_cases h : better d b = true
    · simp only [pickMax, h, if_true]
      exact List.mem_cons_of_mem b (ih d)
    · simp only [pickMax, h, if_false, Bool.false_eq_true]
      rcases List.mem_cons.mp (ih b) with h' | h'
      · rw [h']
        exact List.mem_cons_self _ _
      · exact List.mem_cons_of_mem _ (List.mem_cons_of_mem _ h')

theorem mapGet_eq_none_iff (m : GeneMap) (k : String) :
    mapGet m k = none ↔ ∀ p ∈ m, p.1 ≠ k := by
  simp [mapGet, List.find?_eq_none]

theorem mapGet_some_fst {m : GeneMap} {k : String} {p : String × GeneSelectivity}
    (h : mapGet m k = some p) : p.1 = k := by
  have := List.find?_some h
  simpa using this

theorem mapGet_mem {m : GeneMap} {k : String} {p : String × GeneSelectivity}
    (h : mapGet m k = some p) : p ∈ m :=
  List.mem_of_find?_eq_some h

theorem mapGet_cons (p : String × GeneSelectivity) (t : GeneMap) (k : String) :
    mapGet (p :: t) k = if p.1 = k then some p else mapGet t k := by
  by_cases h : p.1 = k
  · rw [if_pos h]
    exact List.find?_cons_of_pos _ (by simpa using h)
  · rw [if_neg h]
    exact List.find?_cons_of_neg _ (by simpa using h)

theorem find?_append_of_none {α : Type} (p : α → Bool) (l₁ l₂ : List α)
    (h : l₁.find? p = none) : (l₁ ++ l₂).find? p = l₂.find? p := by
  induction l₁ with
  | nil => rfl
  | cons a t ih =>
    by_cases ha : p a = true
    · rw [List.find?_cons_of_pos _ ha] at h
      exact absurd h (by simp)
    · rw [List.find?_cons_of_neg _ ha] at h
      rw [List.cons_append, List.find?_cons_of_neg _ ha]
      exact ih h

theorem find?_append_of_some {α : Type} (p : α → Bool) (l₁ l₂ : List α)
    {a : α} (h : l₁.find? p = some a) : (l₁ ++ l₂).find? p = some a := by
  induction l₁ with
  | nil => simp at h
  | cons b t ih =>
    by_cases hb : p b = true
    · rw [List.find?_cons_of_pos _ hb] at h
      rw [List.cons_append, List.find?_cons_of_pos _ hb]
      exact h
    · rw [List.find?_cons_of_neg _ hb] at h
      rw [List.cons_append, List.find?_cons_of_neg _ hb]
      exact ih h

theorem mapSet_of_none {m : GeneMap} {k : String} (v : GeneSelectivity)
    (h : mapGet m k = none) : mapSet m k v = m ++ [(k, v)] := by
  have hany : m.any (fun p => p.1 = k) = false := by
    rw [Bool.eq_false_iff]
    intro hc
    rcases List.any_eq_true.mp hc with ⟨p, hp, hpk⟩
    exact (mapGet_eq_none_iff m k).mp h p hp (by simpa using hpk)
  simp [mapSet, hany]

theorem mapSet_of_some {m : GeneMap} {k : String} {e : String × GeneSelectivity}
    (v : GeneSelectivity) (h : mapGet m k = some e) :
    mapSet m k v = m.map (fun p => if p.1 = k then (k, v) else p) := by
  have hany : m.any (fun p => p.1 = k) = true :=
    List.any_eq_true.mpr ⟨e, mapGet_mem h, by simpa using mapGet_some_fst h⟩
  simp [mapSet, hany]

theorem keys_replace (m : GeneMap) (k : String) (v : GeneSelectivity) :
    (m.map (fun p => if p.1 = k then (k, v) else p)).map Prod.fst = m.map Prod.fst := by
  induction m with
  | nil => rfl
  | cons p t ih =>
    by_cases h : p.1 = k <;> simp [h, ih]

theorem mapGet_replace (m : GeneMap) (k : String) (v : GeneSelectivity) (k' : String) :
    mapGet (m.map (fun p => if p.1 = k then (k, v) else p)) k' =
      if k' = k then (mapGet m k).map (fun _ => (k, v)) else mapGet m k' := by
  induction m with
  | nil => by_cases h : k' = k <;> simp [mapGet, h]
  | cons p t ih =>
    simp only [List.map_cons]
    by_cases hpk : p.1 = k
    · by_cases h : k' = k
      · subst h
        rw [if_pos rfl, if_pos hpk, mapGet_cons, mapGet_cons, if_pos hpk]
        simp
      · have h1 : ¬ ((k, v).1 = k') := fun he => h he.symm
        have h2 : ¬ (p.1 = k') := fun he => h (he.symm.trans hpk)
        rw [if_neg h, if_pos hpk, mapGet_cons, if_neg h1, mapGet_cons, if_neg h2, ih,
          if_neg h]
    · by_cases h : k' = k
      · subst h
        rw [if_pos rfl, if_neg hpk, mapGet_cons, if_neg hpk, mapGet_cons, if_neg hpk, ih,
          if_pos rfl]
      · rw [if_neg h, if_neg hpk, mapGet_cons, mapGet_cons, ih, if_neg h]

theorem rowsFor_append_single (l : List GeneSelectivity) (d : GeneSelectivity)
    (g : String) :
    rowsFor (l ++ [d]) g = rowsFor l g ++ if d.gene_name = g then [d] else [] := by
  simp only [rowsFor, List.filter_append]
  congr 1
  by_cases h : d.gene_name = g <;> simp [h]

theorem groupPick_append_ne (l : List GeneSelectivity) (d : GeneSelectivity)
    (g : String) (h : d.gene_name ≠ g) :
    groupPick (l ++ [d]) g = groupPick l g := by
  unfold groupPick
  rw [rowsFor_append_single, if_neg h, List.append_nil]

theorem groupPick_append_eq (l : List GeneSelectivity) (d : GeneSelectivity) :
    groupPick (l ++ [d]) d.gene_name =
      some (match groupPick l d.gene_name with
        | none => d
        | some v => if better d v then d else v) := by
  unfold groupPick
  rw [rowsFor_append_single, if_pos rfl]
  cases h : rowsFor l d.gene_name with
  | nil => simp [pickMax]
  | cons hh tt => simp [pickMax_append]

theorem buildStep_eq_none {m : GeneMap} {d : GeneSelectivity}
    (h : mapGet m d.gene_name = none) : buildStep m d = mapSet m d.gene_name d := by
  unfold buildStep
  rw [h]

theorem buildStep_eq_some {m : GeneMap} {d : GeneSelectivity}
    {e : String × GeneSelectivity} (h : mapGet m d.gene_name = some e) :
    buildStep m d = if jsGtB (jsNum d.Selection_Score) (jsNum e.2.Selection_Score)
      then mapSet m d.gene_name d else m := by
  unfold buildStep
  rw [h]

theorem groupPick_append_none {l : List GeneSelectivity} {d : GeneSelectivity}
    (h : groupPick l d.gene_name = none) :
    groupPick (l ++ [d]) d.gene_name = some d := by
  rw [groupPick_append_eq, h]

theorem groupPick_append_some {l : List GeneSelectivity} {d v : GeneSelectivity}
    (h : groupPick l d.gene_name = some v) :
    groupPick (l ++ [d]) d.gene_name = some (if better d v then d else v) := by
  rw [groupPick_append_eq, h]

theorem buildStep_inv (l : List GeneSelectivity) (d : GeneSelectivity) (m : GeneMap)
    (h : MapInv l m) : MapInv (l ++ [d]) (buildStep m d) := by
  obtain ⟨hnd, hget⟩ := h
  cases hm : mapGet m d.gene_name with
  | none =>
    have hg : groupPick l d.gene_name = none :=
      Option.map_eq_none'.mp ((hget d.gene_name).symm.trans hm)
    rw [buildStep_eq_none hm, mapSet_of_none d hm]
    constructor
    · have hk : d.gene_name ∉ m.map Prod.fst := by
        intro hc
        rcases List.mem_map.mp hc with ⟨p, hp, hfst⟩
        exact (mapGet_eq_none_iff m _).mp hm p hp hfst
      rw [List.map_append]
      refine List.nodup_append.mpr ⟨hnd, List.nodup_singleton _, ?_⟩
      intro a ha hb
      simp at hb
      exact hk (hb ▸ ha)
    · intro k
      by_cases hk : d.gene_name = k
      · subst hk
        have hL : mapGet (m ++ [(d.gene_name, d)]) d.gene_name = some (d.gene_name, d) := by
          unfold mapGet
          rw [find?_append_of_none _ _ _ hm]
          exact List.find?_cons_of_pos _ (by simp)
        rw [hL, groupPick_append_none hg]
        rfl
      · rw [groupPick_append_ne l d k hk, ← hget k]
        cases hmk : mapGet m k with
        | none =>
          unfold mapGet
          rw [find?_append_of_none _ _ _ hmk]
          exact List.find?_cons_of_neg _ (by simpa using hk)
        | some p =>
          exact find?_append_of_some _ _ _ hmk
  | some e =>
    have hge : (groupPick l d.gene_name).map (fun v => (d.gene_name, v)) = some e :=
      (hget d.gene_name).symm.trans hm
    rcases Option.map_eq_some'.mp hge with ⟨v, hv, hev⟩
    have hv2 : e.2 = v := by rw [← hev]
    rw [buildStep_eq_some hm]
    by_cases hb : better d v = true
    · have hbe : jsGtB (jsNum d.Selection_Score) (jsNum e.2.Selection_Score) = true := by
        rw [hv2]
        exact hb
      rw [if_pos hbe, mapSet_of_some d hm]
      constructor
      · rw [keys_replace]
        exact hnd
      · intro k
        rw [mapGet_replace]
        by_cases hk : k = d.gene_name
        · subst hk
          rw [if_pos rfl, groupPick_append_some hv, hm, if_pos hb]
          rfl
        · rw [if_neg hk, groupPick_append_ne l d k (fun he => hk he.symm), hget k]
    · have hbe : ¬ (jsGtB (jsNum d.Selection_Score) (jsNum e.2.Selection_Score) = true) := by
        rw [hv2]
        exact hb
      rw [if_neg hbe]
      refine ⟨hnd, ?_⟩
      intro k
      by_cases hk : k = d.gene_name
      · subst hk
        rw [groupPick_append_some hv, if_neg hb, hget _, hv]
      · rw [groupPick_append_ne l d k (fun he => hk he.symm), hget k]

theorem foldl_buildStep_inv (l' : List GeneSelectivity) :
    ∀ (l : List GeneSelectivity) (m : GeneMap), MapInv l m →
      MapInv (l ++ l') (l'.foldl buildStep m) := by
  induction l' with
  | nil =>
    intro l m h
    simpa using h
  | cons d t ih =>
    intro l m h
    have h2 := ih (l ++ [d]) (buildStep m d) (buildStep_inv l d m h)
    simpa using h2

theorem buildGeneMap_inv (l : List GeneSelectivity) : MapInv l (buildGeneMap l) := by
  have hbase : MapInv [] [] := by
    refine ⟨List.nodup_nil, ?_⟩
    intro k
    simp [mapGet, groupPick, rowsFor]
  have := foldl_buildStep_inv l [] [] hbase
  simpa [buildGeneMap] using this




theorem mapGet_self_of_mem {m : GeneMap} (hnd : (m.map Prod.fst).Nodup)
    {p : String × GeneSelectivity} (hp : p ∈ m) : mapGet m p.1 = some p := by
  induction m with
  | nil => simp at hp
  | cons q t ih =>
    have hnd' : (t.map Prod.fst).Nodup := (List.nodup_cons.mp (by simpa using hnd)).2
    have hq : q.1 ∉ t.map Prod.fst := (List.nodup_cons.mp (by simpa using hnd)).1
    rcases List.mem_cons.mp hp with rfl | hp'
    · rw [mapGet_cons, if_pos rfl]
    · have hne : q.1 ≠ p.1 := fun he => hq (he ▸ List.mem_map_of_mem Prod.fst hp')
      rw [mapGet_cons, if_neg hne]
      exact ih hnd' hp'

theorem mem_rowsFor {l : List GeneSelectivity} {g : String} {x : GeneSelectivity} :
    x ∈ rowsFor l g ↔ x ∈ l ∧ x.gene_name = g := by
  simp [rowsFor, List.mem_filter]

theorem groupPick_some_mem {l : List GeneSelectivity} {g : String} {v : GeneSelectivity}
    (h : groupPick l g = some v) : v ∈ rowsFor l g := by
  unfold groupPick at h
  cases hr : rowsFor l g with
  | nil =>
    rw [hr] at h
    simp at h
  | cons hh tt =>
    rw [hr] at h
    simp only [Option.some.injEq] at h
    rw [← h]
    exact pickMax_mem tt hh

theorem mapKeys_iff (l : List GeneSelectivity) (g : String) :
    g ∈ (buildGeneMap l).map Prod.fst ↔ g ∈ l.map GeneSelectivity.gene_name := by
  obtain ⟨hnd, hget⟩ := buildGeneMap_inv l
  constructor
  · intro hc
    rcases List.mem_map.mp hc with ⟨p, hp, hfst⟩
    have h1 : mapGet (buildGeneMap l) p.1 = some p := mapGet_self_of_mem hnd hp
    rw [hget p.1] at h1
    rcases Option.map_eq_some'.mp h1 with ⟨v, hv, _⟩
    have h2 := mem_rowsFor.mp (groupPick_some_mem hv)
    exact List.mem_map.mpr ⟨v, h2.1, hfst ▸ h2.2⟩
  · intro hc
    rcases List.mem_map.mp hc with ⟨x, hx, hg⟩
    have hne : rowsFor l g ≠ [] := by
      intro hnil
      have : x ∈ rowsFor l g := mem_rowsFor.mpr ⟨hx, hg⟩
      rw [hnil] at this
      simp at this
    cases hr : rowsFor l g with
    | nil => exact absurd hr hne
    | cons hh tt =>
      have hgp : groupPick l g = some (pickMax hh tt) := by
        unfold groupPick
        rw [hr]
      have h1 : mapGet (buildGeneMap l) g = some (g, pickMax hh tt) := by
        rw [hget g, hgp]
        rfl
      exact List.mem_map.mpr ⟨(g, pickMax hh tt), mapGet_mem h1, rfl⟩

theorem countP_nodup_strings (L : List String) (hnd : L.Nodup) (g : String) :
    L.countP (fun x => x = g) = if g ∈ L then 1 else 0 := by
  induction L with
  | nil => simp
  | cons a t ih =>
    rcases List.nodup_cons.mp hnd with ⟨ha, ht⟩
    by_cases h : a = g
    · subst h
      have hz : t.countP (fun x => x = a) = 0 := by
        rw [List.countP_eq_zero]
        intro b hb
        simp only [decide_eq_true_eq]
        exact fun he => ha (he ▸ hb)
      simp [List.countP_cons, hz]
    · have hga : g ≠ a := fun he => h he.symm
      rw [List.countP_cons]
      simp [h, ih ht, hga]




theorem values_countP (l : List GeneSelectivity) (g : String) :
    ((buildGeneMap l).map Prod.snd).countP (fun r => r.gene_name = g) =
      if g ∈ l.map GeneSelectivity.gene_name then 1 else 0 := by
  obtain ⟨hnd, hget⟩ := buildGeneMap_inv l
  have hkeys : ∀ p ∈ buildGeneMap l, p.2.gene_name = p.1 := by
    intro p hp
    have h1 : mapGet (buildGeneMap l) p.1 = some p := mapGet_self_of_mem hnd hp
    rw [hget p.1] at h1
    rcases Option.map_eq_some'.mp h1 with ⟨v, hv, hev⟩
    have h2 := (mem_rowsFor.mp (groupPick_some_mem hv)).2
    rw [← hev]
    exact h2
  rw [List.countP_map]
  have hcongr : (buildGeneMap l).countP ((fun r => decide (r.gene_name = g)) ∘ Prod.snd) =
      (buildGeneMap l).countP (fun p => decide (p.1 = g)) := by
    apply List.countP_congr
    intro p hp
    simp [hkeys p hp]
  rw [hcongr]
  have hmapfst : (buildGeneMap l).countP (fun p => decide (p.1 = g)) =
      ((buildGeneMap l).map Prod.fst).countP (fun x => decide (x = g)) := by
    rw [List.countP_map]
    rfl
  rw [hmapfst, countP_nodup_strings _ hnd g]
  simp only [mapKeys_iff]

theorem pickMax_ge (t : List GeneSelectivity) (b : GeneSelectivity)
    (hnum : ∀ x ∈ b :: t, (jsNum x.Selection_Score).isSome = true) :
    ∀ x ∈ b :: t,
      jsGeB (jsNum (pickMax b t).Selection_Score) (jsNum x.Selection_Score) = true := by
  induction t generalizing b with
  | nil =>
    intro x hx
    have hx' : x = b := List.mem_singleton.mp hx
    subst hx'
    rcases Option.isSome_iff_exists.mp (hnum x (List.mem_cons_self x [])) with ⟨qb, hqb⟩
    simp [pickMax, jsGeB, hqb, decLeB_iff]
  | cons d t ih =>
    intro x hx
    have hmb : b ∈ b :: d :: t := List.mem_cons_self _ _
    have hmd : d ∈ b :: d :: t := List.mem_cons_of_mem _ (List.mem_cons_self _ _)
    rcases Option.isSome_iff_exists.mp (hnum b hmb) with ⟨qb, hqb⟩
    rcases Option.isSome_iff_exists.mp (hnum d hmd) with ⟨qd, hqd⟩
    by_cases hdb : better d b = true
    · have hnum' : ∀ y ∈ d :: t, (jsNum y.Selection_Score).isSome = true := by
        intro y hy
        rcases List.mem_cons.mp hy with rfl | hy'
        · exact hnum y hmd
        · exact hnum y (List.mem_cons_of_mem _ (List.mem_cons_of_mem _ hy'))
      have hpm : pickMax b (d :: t) = pickMax d t := by simp [pickMax, hdb]
      rw [hpm]
      rcases List.mem_cons.mp hx with heq | hx'
      · rw [heq]
        have hged := ih d hnum' d (List.mem_cons_self _ _)
        rcases Option.isSome_iff_exists.mp (hnum' (pickMax d t) (pickMax_mem t d))
          with ⟨qp, hqp⟩
        have h1 : qd.val ≤ qp.val := by
          simpa [jsGeB, hqp, hqd, decLeB_iff] using hged
        have h2 : qb.val < qd.val := by
          simpa [better, jsGtB, hqd, hqb, decLtB_iff] using hdb
        simp only [jsGeB, hqp, hqb, decLeB_iff]
        linarith
      · exact ih d hnum' x hx'
    · have hnum' : ∀ y ∈ b :: t, (jsNum y.Selection_Score).isSome = true := by
        intro y hy
        rcases List.mem_cons.mp hy with rfl | hy'
        · exact hnum y hmb
        · exact hnum y (List.mem_cons_of_mem _ (List.mem_cons_of_mem _ hy'))
      have hpm : pickMax b (d :: t) = pickMax b t := by simp [pickMax, hdb]
      rw [hpm]
      rcases List.mem_cons.mp hx with heq | hx'
      · rw [heq]
        exact ih b hnum' b (List.mem_cons_self _ _)
      · rcases List.mem_cons.mp hx' with heq | hx''
        · rw [heq]
          have hgeb := ih b hnum' b (List.mem_cons_self _ _)
          rcases Option.isSome_iff_exists.mp (hnum' (pickMax b t) (pickMax_mem t b))
            with ⟨qp, hqp⟩
          have h1 : qb.val ≤ qp.val := by
            simpa [jsGeB, hqp, hqb, decLeB_iff] using hgeb
          have h2 : qd.val ≤ qb.val := by
            have hc : ¬ (qb.val < qd.val) := fun hc =>
              hdb (by simp [better, jsGtB, hqd, hqb, decLtB_iff, hc])
            exact le_of_not_lt hc
          simp only [jsGeB, hqp, hqd, decLeB_iff]
          linarith
        · exact ih b hnum' x (List.mem_cons_of_mem _ hx'')




theorem pickMax_decomp (t : List GeneSelectivity) (b : GeneSelectivity)
    (hnum : ∀ x ∈ b :: t, (jsNum x.Selection_Score).isSome = true) :
    ∃ l₁ l₂, b :: t = l₁ ++ pickMax b t :: l₂ ∧
      ∀ x ∈ l₁, jsGtB (jsNum (pickMax b t).Selection_Score)
        (jsNum x.Selection_Score) = true := by
  induction t generalizing b with
  | nil => exact ⟨[], [], by simp [pickMax], by simp⟩
  | cons d t ih =>
    have hmb : b ∈ b :: d :: t := List.mem_cons_self _ _
    have hmd : d ∈ b :: d :: t := List.mem_cons_of_mem _ (List.mem_cons_self _ _)
    rcases Option.isSome_iff_exists.mp (hnum b hmb) with ⟨qb, hqb⟩
    rcases Option.isSome_iff_exists.mp (hnum d hmd) with ⟨qd, hqd⟩
    by_cases hdb : better d b = true
    · have hnum' : ∀ y ∈ d :: t, (jsNum y.Selection_Score).isSome = true := by
        intro y hy
        rcases List.mem_cons.mp hy with heq | hy'
        · rw [heq]
          exact hnum d hmd
        · exact hnum y (List.mem_cons_of_mem _ (List.mem_cons_of_mem _ hy'))
      have hpm : pickMax b (d :: t) = pickMax d t := by simp [pickMax, hdb]
      obtain ⟨l₁, l₂, hdec, hpre⟩ := ih d hnum'
      refine ⟨b :: l₁, l₂, ?_, ?_⟩
      · rw [hpm, List.cons_append, ← hdec]
      · intro x hx
        rw [hpm]
        rcases List.mem_cons.mp hx with heq | hx'
        · rw [heq]
          rcases Option.isSome_iff_exists.mp (hnum' (pickMax d t) (pickMax_mem t d))
            with ⟨qp, hqp⟩
          have h1 : qd.val ≤ qp.val := by
            simpa [jsGeB, hqp, hqd, decLeB_iff] using
              pickMax_ge t d hnum' d (List.mem_cons_self _ _)
          have h2 : qb.val < qd.val := by
            simpa [better, jsGtB, hqd, hqb, decLtB_iff] using hdb
          simp only [jsGtB, hqp, hqb, decLtB_iff]
          linarith
        · exact hpre x hx'
    · have hnum' : ∀ y ∈ b :: t, (jsNum y.Selection_Score).isSome = true := by
        intro y hy
        rcases List.mem_cons.mp hy with heq | hy'
        · rw [heq]
          exact hnum b hmb
        · exact hnum y (List.mem_cons_of_mem _ (List.mem_cons_of_mem _ hy'))
      have hpm : pickMax b (d :: t) = pickMax b t := by simp [pickMax, hdb]
      obtain ⟨l₁, l₂, hdec, hpre⟩ := ih b hnum'
      cases l₁ with
      | nil =>
        simp only [List.nil_append] at hdec
        refine ⟨[], d :: t, ?_, by simp⟩
        rw [hpm]
        have h1 : b = pickMax b t := by
          injection hdec
        simp only [List.nil_append]
        rw [← h1]
      | cons c l₁' =>
        simp only [List.cons_append] at hdec
        have h1 : b = c := by injection hdec
        have h2 : t = l₁' ++ pickMax b t :: l₂ := by injection hdec with _ h2
        refine ⟨b :: d :: l₁', l₂, ?_, ?_⟩
        · rw [hpm]
          simp only [List.cons_append]
          rw [← h2]
        · have hgb : jsGtB (jsNum (pickMax b t).Selection_Score)
              (jsNum b.Selection_Score) = true := by
            have h3 := hpre c (List.mem_cons_self _ _)
            rw [← h1] at h3
            exact h3
          intro x hx
          rw [hpm]
          rcases List.mem_cons.mp hx with heq | hx'
          · rw [heq]
            exact hgb
          · rcases List.mem_cons.mp hx' with heq | hx''
            · rw [heq]
              rcases Option.isSome_iff_exists.mp (hnum' (pickMax b t) (pickMax_mem t b))
                with ⟨qp, hqp⟩
              have h3 : qb.val < qp.val := by
                simpa [jsGtB, hqp, hqb, decLtB_iff] using hgb
              have h4 : qd.val ≤ qb.val := by
                have hc : ¬ (qb.val < qd.val) := fun hc =>
                  hdb (by simp [better, jsGtB, hqd, hqb, decLtB_iff, hc])
                exact le_of_not_lt hc
              simp only [jsGtB, hqp, hqd, decLtB_iff]
              linarith
            · exact hpre x (h1 ▸ List.mem_cons_of_mem c hx'')




/-- C1: under the All Cancers scope, and with every Selection_Score reading
    as a number, the filtered selectivity view holds exactly one record per
    gene_name occurring in the dataset; the retained record has a score
    greater or equal to that of every record of its gene, and every record
    placed before it among the rows of its gene scores strictly below it, so
    on equal scores the record seen first in input order is the one kept. -/
theorem c1_all_cancers_grouping (l : List GeneSelectivity)
    (hnum : ∀ d ∈ l, (jsNum d.Selection_Score).isSome = true) :
    (∀ g : String,
      (filteredSelectivity l ALL_CANCERS).countP (fun r => r.gene_name = g) =
        if g ∈ l.map GeneSelectivity.gene_name then 1 else 0)
    ∧ ∀ r ∈ filteredSelectivity l ALL_CANCERS,
        (∀ d ∈ l, d.gene_name = r.gene_name →
          jsGeB (jsNum r.Selection_Score) (jsNum d.Selection_Score) = true)
        ∧ ∃ l₁ l₂, rowsFor l r.gene_name = l₁ ++ r :: l₂ ∧
            ∀ x ∈ l₁, jsGtB (jsNum r.Selection_Score) (jsNum x.Selection_Score) = true := by
  have hfs : filteredSelectivity l ALL_CANCERS = (buildGeneMap l).map Prod.snd := by
    simp [filteredSelectivity]
  constructor
  · intro g
    rw [hfs]
    exact values_countP l g
  · intro r hr
    rw [hfs] at hr
    rcases List.mem_map.mp hr with ⟨p, hp, hpr⟩
    obtain ⟨hnd, hget⟩ := buildGeneMap_inv l
    have h1 : mapGet (buildGeneMap l) p.1 = some p := mapGet_self_of_mem hnd hp
    rw [hget p.1] at h1
    rcases Option.map_eq_some'.mp h1 with ⟨v, hv, hev⟩
    have hvr : v = r := by
      rw [← hpr, ← hev]
    have hv' : groupPick l p.1 = some r := hvr ▸ hv
    have hpg : p.1 = r.gene_name := ((mem_rowsFor.mp (groupPick_some_mem hv')).2).symm
    rw [hpg] at hv'
    cases hrows : rowsFor l r.gene_name with
    | nil =>
      have := groupPick_some_mem hv'
      rw [hrows] at this
      simp at this
    | cons hh tt =>
      have hgp : groupPick l r.gene_name = some (pickMax hh tt) := by
        unfold groupPick
        rw [hrows]
      have hreq : r = pickMax hh tt := by
        have h2 := hv'.symm.trans hgp
        exact Option.some.inj h2
      have hnumrows : ∀ x ∈ hh :: tt, (jsNum x.Selection_Score).isSome = true := by
        intro x hx
        rw [← hrows] at hx
        exact hnum x (mem_rowsFor.mp hx).1
      constructor
      · intro d hd hdg
        have hdrows : d ∈ hh :: tt := by
          rw [← hrows]
          exact mem_rowsFor.mpr ⟨hd, hdg⟩
        have h3 := pickMax_ge tt hh hnumrows d hdrows
        rw [← hreq] at h3
        exact h3
      · obtain ⟨l₁, l₂, hdec, hpre⟩ := pickMax_decomp tt hh hnumrows
        refine ⟨l₁, l₂, ?_, ?_⟩
        · rw [hdec, ← hreq]
        · intro x hx
          have h3 := hpre x hx
          rw [← hreq] at h3
          exact h3

/-! ## Remaining claims -/

/-- C2: exact-match filtering for a specific cancer type, and pass-through of
    the differential data under the all-cancers scope. -/
theorem c2_exact_match_filters (selData : List GeneSelectivity)
    (cpData : List CptacData) (c : String) (hc : c ≠ ALL_CANCERS) :
    (∀ r : GeneSelectivity,
      r ∈ filteredSelectivity selData c ↔ r ∈ selData ∧ r.active_project = c)
    ∧ (∀ r : CptacData, r ∈ filteredCptac cpData c ↔ r ∈ cpData ∧ r.Cancer = c)
    ∧ filteredCptac cpData ALL_CANCERS = cpData := by
  refine ⟨?_, ?_, ?_⟩
  · intro r
    rw [filteredSelectivity, if_neg hc]
    simp [List.mem_filter]
  · intro r
    rw [filteredCptac, if_neg hc]
    simp [List.mem_filter]
  · rw [filteredCptac, if_pos rfl]

/-- C7: both the cancer-change handler and the sort handler reset the page
    to 1 from any prior state. -/
theorem c7_page_reset (st : UiState) (cancer key : String) :
    (handleCancerChange st cancer).currentPage = 1
    ∧ (handleSort st key).currentPage = 1 :=
  ⟨rfl, rfl⟩

/-- C10: a blank or all-whitespace query makes the table search a no-op: no
    error is set and the page and the selected gene are unchanged. -/
theorem c10_blank_query_noop (sorted : List GeneSelectivity) (st : UiState)
    (h : jsTrim st.searchQuery = "") :
    (handleSearch sorted st).searchError = st.searchError
    ∧ (handleSearch sorted st).currentPage = st.currentPage
    ∧ (handleSearch sorted st).selectedGene = st.selectedGene := by
  unfold handleSearch
  rw [if_pos h]
  exact ⟨rfl, rfl, rfl⟩

/-- C8 counterexample: the selectivity text is not parsed as comma-delimited
    records; on a comma-delimited header and row the code produces one field
    holding the whole line. -/
theorem c8_selectivity_not_comma_parsed :
    loadDatasets "gene_name,Selection_Score\nTP53,0.9" "" "" =
      ([[("gene_name,Selection_Score", "TP53,0.9")]], [], [])
    ∧ specParseDelimited ',' "gene_name,Selection_Score\nTP53,0.9" =
      [[("gene_name", "TP53"), ("Selection_Score", "0.9")]]
    ∧ (loadDatasets "gene_name,Selection_Score\nTP53,0.9" "" "").1 ≠
      specParseDelimited ',' "gene_name,Selection_Score\nTP53,0.9" := by
  refine ⟨?_, ?_, ?_⟩ <;> decide

/-- C8 (amended): every source, the comma-named selectivity file included, is
    parsed tab-delimited: first line a header row, later lines split on tab
    into positional fields defaulting to the empty string; the record count
    is the number of lines minus one. -/
theorem c8_all_sources_tab_parsed (selText tnText cpText text : String) :
    (loadDatasets selText tnText cpText).1 = specParseDelimited '\t' selText
    ∧ (loadDatasets selText tnText cpText).2.1 = specParseDelimited '\t' tnText
    ∧ (loadDatasets selText tnText cpText).2.2 = specParseDelimited '\t' cpText
    ∧ (parseTSV text).length = (jsSplit '\n' (jsTrim text)).length - 1 := by
  refine ⟨rfl, rfl, rfl, ?_⟩
  rw [parseTSV]
  simp

/-- C9 counterexample: a non-2xx response whose JSON body has no error field
    is not surfaced as an error string embedding the failure reason; the code
    ignores the status and displays the body like a success. -/
theorem c9_non2xx_not_reported :
    generateReportContent (FetchOutcome.jsonBody 500
      { error := none, report := some "hello" }) = "hello"
    ∧ ("Error: ".isPrefixOf "hello") = false := by
  exact ⟨rfl, rfl⟩

/-- C9 (amended): a network error, a body that fails to parse, or an error
    field in the body each yield Error-prefixed text embedding the reason;
    the HTTP status is ignored; a body without an error field displays its
    report text, or a fallback when absent. -/
theorem c9_report_content_contract (msg : String) (status : Nat)
    (body : ReportResponseBody) (r : String) :
    generateReportContent (FetchOutcome.networkError msg) = "Error: " ++ msg
    ∧ generateReportContent (FetchOutcome.jsonError status msg) = "Error: " ++ msg
    ∧ (body.error = some msg →
        generateReportContent (FetchOutcome.jsonBody status body) = "Error: " ++ msg)
    ∧ (body.error = none → body.report = some r → r ≠ "" →
        generateReportContent (FetchOutcome.jsonBody status body) = r)
    ∧ (body.error = none → body.report = none →
        generateReportContent (FetchOutcome.jsonBody status body) = "No report generated")
    ∧ (∀ status₂ : Nat, generateReportContent (FetchOutcome.jsonBody status body) =
        generateReportContent (FetchOutcome.jsonBody status₂ body)) := by
  refine ⟨rfl, rfl, ?_, ?_, ?_, ?_⟩
  · intro he
    simp [generateReportContent, he]
  · intro he hr hne
    simp [generateReportContent, he, hr, reportOrDefault, hne]
  · intro he hr
    simp [generateReportContent, he, hr, reportOrDefault]
  · intro s2
    rfl



theorem pages_join_aux :
    ∀ (k : Nat) (L : List GeneSelectivity), (L.length + PAGE_SIZE - 1) / PAGE_SIZE = k →
      ((List.range k).map (fun i => (L.drop (i * PAGE_SIZE)).take PAGE_SIZE)).flatten = L := by
  intro k
  induction k with
  | zero =>
    intro L hL
    have hlen : L.length = 0 := by
      simp only [PAGE_SIZE] at hL
      omega
    rw [List.length_eq_zero] at hlen
    subst hlen
    simp
  | succ k ih =>
    intro L hL
    have hlen : ((L.drop PAGE_SIZE).length + PAGE_SIZE - 1) / PAGE_SIZE = k := by
      rw [List.length_drop]
      simp only [PAGE_SIZE] at hL ⊢
      omega
    have hjoin := ih (L.drop PAGE_SIZE) hlen
    rw [List.range_succ_eq_map, List.map_cons, List.flatten_cons, List.map_map]
    have hmap : ((List.range k).map ((fun i => (L.drop (i * PAGE_SIZE)).take PAGE_SIZE) ∘ Nat.succ))
        = (List.range k).map (fun i => ((L.drop PAGE_SIZE).drop (i * PAGE_SIZE)).take PAGE_SIZE) := by
      apply List.map_congr_left
      intro i _
      simp only [Function.comp]
      rw [List.drop_drop]
      have h2 : Nat.succ i * PAGE_SIZE = PAGE_SIZE + i * PAGE_SIZE := by
        rw [Nat.succ_mul, Nat.add_comm]
      rw [h2]
    rw [hmap, hjoin]
    simp

/-- C6: the page count is the ceiling of length over the fixed page size 50;
    page p is the slice starting at (p-1)*50; the pages concatenate back to
    the whole sorted sequence; the last page holds length mod 50 entries, or
    50 when the length is a positive multiple of 50. -/
theorem c6_pagination_contract (sorted : List GeneSelectivity) (p : Nat) (hp : 1 ≤ p) :
    (sorted.length ≤ PAGE_SIZE * totalPages sorted
      ∧ PAGE_SIZE * totalPages sorted < sorted.length + PAGE_SIZE)
    ∧ ((List.range (totalPages sorted)).map (fun i => paginatedData sorted (i + 1))).flatten
        = sorted
    ∧ (∀ i, i < PAGE_SIZE →
        (paginatedData sorted p).get? i = sorted.get? ((p - 1) * PAGE_SIZE + i))
    ∧ (sorted ≠ [] →
        (paginatedData sorted (totalPages sorted)).length =
          if sorted.length % PAGE_SIZE = 0 then PAGE_SIZE
          else sorted.length % PAGE_SIZE) := by
  refine ⟨⟨?_, ?_⟩, ?_, ?_, ?_⟩
  · simp only [totalPages, PAGE_SIZE]
    omega
  · simp only [totalPages, PAGE_SIZE]
    omega
  · have h1 : ∀ i : Nat, paginatedData sorted (i + 1) =
        (sorted.drop (i * PAGE_SIZE)).take PAGE_SIZE := by
      intro i
      simp [paginatedData]
    simp only [h1]
    exact pages_join_aux (totalPages sorted) sorted rfl
  · intro i hi
    rw [paginatedData, List.get?_take hi, List.get?_drop]
  · intro hne
    have hlen : sorted.length ≠ 0 := fun h => hne (List.length_eq_zero.mp h)
    rw [paginatedData, List.length_take, List.length_drop]
    simp only [totalPages, PAGE_SIZE]
    by_cases hmod : sorted.length % 50 = 0
    · rw [if_pos hmod]
      omega
    · rw [if_neg hmod]
      omega



theorem findIdxElem_none_iff {α : Type} (p : α → Bool) (l : List α) :
    findIdxElem p l = none ↔ ∀ x ∈ l, p x = false := by
  induction l with
  | nil => simp [findIdxElem]
  | cons a t ih =>
    by_cases h : p a = true
    · simp [findIdxElem, h]
    · have h' : p a = false := Bool.eq_false_iff.mpr h
      simp [findIdxElem, h', Option.map_eq_none', ih]

theorem findIdxElem_some {α : Type} (p : α → Bool) :
    ∀ (l : List α) (i : Nat) (d : α), findIdxElem p l = some (i, d) →
      p d = true ∧ ∃ pre post, l = pre ++ d :: post ∧ pre.length = i ∧
        ∀ x ∈ pre, p x = false := by
  intro l
  induction l with
  | nil =>
    intro i d h
    simp [findIdxElem] at h
  | cons a t ih =>
    intro i d h
    by_cases ha : p a = true
    · rw [findIdxElem, if_pos ha] at h
      have h1 : 0 = i ∧ a = d := by
        constructor
        · exact congrArg Prod.fst (Option.some.inj h)
        · exact congrArg Prod.snd (Option.some.inj h)
      refine ⟨h1.2 ▸ ha, [], t, ?_, ?_, by simp⟩
      · rw [h1.2]
        rfl
      · rw [← h1.1]
        rfl
    · rw [findIdxElem, if_neg ha] at h
      rcases Option.map_eq_some'.mp h with ⟨⟨j, e⟩, hje, hmk⟩
      have hie : j + 1 = i ∧ e = d := by
        constructor
        · exact congrArg Prod.fst hmk
        · exact congrArg Prod.snd hmk
      obtain ⟨hpd, pre, post, hdec, hlen, hpre⟩ := ih j e hje
      refine ⟨hie.2 ▸ hpd, a :: pre, post, ?_, ?_, ?_⟩
      · rw [← hie.2, List.cons_append, hdec]
      · rw [← hie.1]
        simp [hlen]
      · intro x hx
        rcases List.mem_cons.mp hx with heq | hx'
        · rw [heq]
          exact Bool.eq_false_iff.mpr ha
        · exact hpre x hx'

/-- C3: for a non-blank query the table search, run against the sorted and
    filtered view, succeeds exactly when some record of that view matches the
    trimmed query case-insensitively; it selects the first such record in
    view order; a miss sets the inline not-found message and leaves the page
    and the selected gene unchanged. -/
theorem c3_table_search_contract (dataL : List GeneSelectivity) (sel : String)
    (cfg : SortConfig) (st : UiState) (hq : jsTrim st.searchQuery ≠ "") :
    ((handleSearch (sortedData (filteredSelectivity dataL sel) cfg) st).searchError = ""
      ↔ ∃ d ∈ sortedData (filteredSelectivity dataL sel) cfg,
          jsToUpper d.gene_name = jsToUpper (jsTrim st.searchQuery))
    ∧ ((∃ d ∈ sortedData (filteredSelectivity dataL sel) cfg,
          jsToUpper d.gene_name = jsToUpper (jsTrim st.searchQuery)) →
        ∃ pre d post, sortedData (filteredSelectivity dataL sel) cfg = pre ++ d :: post
          ∧ (∀ x ∈ pre, jsToUpper x.gene_name ≠ jsToUpper (jsTrim st.searchQuery))
          ∧ jsToUpper d.gene_name = jsToUpper (jsTrim st.searchQuery)
          ∧ (handleSearch (sortedData (filteredSelectivity dataL sel) cfg) st).selectedGene
              = some d.gene_name)
    ∧ ((¬ ∃ d ∈ sortedData (filteredSelectivity dataL sel) cfg,
          jsToUpper d.gene_name = jsToUpper (jsTrim st.searchQuery)) →
        (handleSearch (sortedData (filteredSelectivity dataL sel) cfg) st).searchError
            = searchMissMsg
        ∧ (handleSearch (sortedData (filteredSelectivity dataL sel) cfg) st).currentPage
            = st.currentPage
        ∧ (handleSearch (sortedData (filteredSelectivity dataL sel) cfg) st).selectedGene
            = st.selectedGene) := by
  have hmsg : searchMissMsg ≠ "" := by decide
  set view := sortedData (filteredSelectivity dataL sel) cfg with hview
  have hunfold : handleSearch view st =
      match findIdxElem (fun d => jsToUpper d.gene_name = jsToUpper (jsTrim st.searchQuery))
        view with
      | none => { st with searchError := searchMissMsg }
      | some (i, d) =>
        { st with
          searchError := ""
          currentPage := i / PAGE_SIZE + 1
          selectedGene := some d.gene_name } := by
    rw [handleSearch, if_neg hq]
  cases hfind : findIdxElem
      (fun d => jsToUpper d.gene_name = jsToUpper (jsTrim st.searchQuery)) view with
  | none =>
    rw [hfind] at hunfold
    have hall := (findIdxElem_none_iff _ _).mp hfind
    have hnoex : ¬ ∃ d ∈ view, jsToUpper d.gene_name = jsToUpper (jsTrim st.searchQuery) := by
      rintro ⟨d, hd, hupper⟩
      have := hall d hd
      simp [hupper] at this
    refine ⟨?_, ?_, ?_⟩
    · rw [hunfold]
      simp only []
      constructor
      · intro he
        exact absurd he hmsg
      · intro he
        exact absurd he hnoex
    · intro he
      exact absurd he hnoex
    · intro _
      rw [hunfold]
      exact ⟨rfl, rfl, rfl⟩
  | some id =>
    rcases id with ⟨i, d⟩
    rw [hfind] at hunfold
    obtain ⟨hpd, pre, post, hdec, _, hpre⟩ := findIdxElem_some _ view i d hfind
    have hex : ∃ d ∈ view, jsToUpper d.gene_name = jsToUpper (jsTrim st.searchQuery) := by
      refine ⟨d, ?_, by simpa using hpd⟩
      rw [hdec]
      exact List.mem_append_right _ (List.mem_cons_self _ _)
    refine ⟨?_, ?_, ?_⟩
    · have hse : (handleSearch view st).searchError = "" := by rw [hunfold]
      exact ⟨fun _ => hex, fun _ => hse⟩
    · intro _
      refine ⟨pre, d, post, hdec, ?_, by simpa using hpd, ?_⟩
      · intro x hx
        have := hpre x hx
        simp at this
        exact this
      · rw [hunfold]
    · intro hne
      exact absurd hex hne

/-! ## Concrete witnesses -/

/-- C1 witness: on the spec example rows (TP53 at 0.9 for breast cancer,
    TP53 at 0.95 for lung cancer, EGFR at 0.7 for breast cancer) the
    All Cancers view keeps exactly one TP53 record. -/
theorem c1_all_cancers_grouping_witness :
    (filteredSelectivity
      [{ (default : GeneSelectivity) with
          gene_name := "TP53"
          Selection_Score := "0.9"
          active_project := "breast cancer" },
       { (default : GeneSelectivity) with
          gene_name := "TP53"
          Selection_Score := "0.95"
          active_project := "lung cancer" },
       { (default : GeneSelectivity) with
          gene_name := "EGFR"
          Selection_Score := "0.7"
          active_project := "breast cancer" }]
      ALL_CANCERS).countP (fun r => r.gene_name = "TP53") = 1 := by
  have h := (c1_all_cancers_grouping
    [{ (default : GeneSelectivity) with
        gene_name := "TP53"
        Selection_Score := "0.9"
        active_project := "breast cancer" },
     { (default : GeneSelectivity) with
        gene_name := "TP53"
        Selection_Score := "0.95"
        active_project := "lung cancer" },
     { (default : GeneSelectivity) with
        gene_name := "EGFR"
        Selection_Score := "0.7"
        active_project := "breast cancer" }]
    (by decide)).1 "TP53"
  rw [if_pos (by decide)] at h
  exact h

/-- C2 witness: a lung-cancer row is retained by the lung-cancer filter. -/
theorem c2_exact_match_filters_witness :
    ({ (default : CptacData) with Cancer := "lung cancer" } : CptacData) ∈
        filteredCptac [{ (default : CptacData) with Cancer := "lung cancer" }] "lung cancer"
      ↔ ({ (default : CptacData) with Cancer := "lung cancer" } : CptacData) ∈
          [{ (default : CptacData) with Cancer := "lung cancer" }]
        ∧ ({ (default : CptacData) with Cancer := "lung cancer" } : CptacData).Cancer
            = "lung cancer" :=
  (c2_exact_match_filters [] [{ (default : CptacData) with Cancer := "lung cancer" }]
    "lung cancer" (by decide)).2.1
    { (default : CptacData) with Cancer := "lung cancer" }

/-- C3 witness: searching the lowercase query tp53 in the all-cancers view of
    a one-row TP53 dataset succeeds exactly when the view matches it. -/
theorem c3_table_search_contract_witness :
    ((handleSearch (sortedData (filteredSelectivity
        [{ (default : GeneSelectivity) with
            gene_name := "TP53"
            Selection_Score := "0.9"
            active_project := "breast cancer" }]
        ALL_CANCERS) initialSortConfig)
      { (default : UiState) with searchQuery := "tp53" }).searchError = ""
      ↔ ∃ d ∈ sortedData (filteredSelectivity
          [{ (default : GeneSelectivity) with
              gene_name := "TP53"
              Selection_Score := "0.9"
              active_project := "breast cancer" }]
          ALL_CANCERS) initialSortConfig,
          jsToUpper d.gene_name =
            jsToUpper (jsTrim ({ (default : UiState) with
              searchQuery := "tp53" } : UiState).searchQuery)) :=
  (c3_table_search_contract
    [{ (default : GeneSelectivity) with
        gene_name := "TP53"
        Selection_Score := "0.9"
        active_project := "breast cancer" }]
    ALL_CANCERS initialSortConfig
    { (default : UiState) with searchQuery := "tp53" } (by decide)).1

/-- C4 witness: with the default configuration the sorted view of two rows is
    descending in Selection_Score. -/
theorem c4_sort_contract_witness :
    (sortedData
      [{ (default : GeneSelectivity) with
          gene_name := "A"
          Selection_Score := "1" },
       { (default : GeneSelectivity) with
          gene_name := "B"
          Selection_Score := "2" }]
      initialSortConfig).Pairwise
      (fun a b =>
        (sortVal initialSortConfig.key b).val ≤ (sortVal initialSortConfig.key a).val) :=
  (c4_sort_contract
    [{ (default : GeneSelectivity) with
        gene_name := "A"
        Selection_Score := "1" },
     { (default : GeneSelectivity) with
        gene_name := "B"
        Selection_Score := "2" }]
    initialSortConfig "gene_name").2.1 rfl

/-- C6 witness: the pages of a one-row list concatenate back to the list. -/
theorem c6_pagination_contract_witness :
    ((List.range (totalPages
        [{ (default : GeneSelectivity) with gene_name := "A" }])).map
      (fun i => paginatedData
        [{ (default : GeneSelectivity) with gene_name := "A" }] (i + 1))).flatten =
      [{ (default : GeneSelectivity) with gene_name := "A" }] :=
  (c6_pagination_contract [{ (default : GeneSelectivity) with gene_name := "A" }]
    1 (by decide)).2.1

/-- C9 witness: a body carrying the rate limited error message renders error
    text embedding that message. -/
theorem c9_report_content_contract_witness :
    generateReportContent (FetchOutcome.jsonBody 200
      { error := some "rate limited", report := none }) = "Error: " ++ "rate limited" :=
  (c9_report_content_contract "rate limited" 200
    { error := some "rate limited", report := none } "r").2.2.1 rfl

/-- C10 witness: a whitespace-only query leaves the page unchanged. -/
theorem c10_blank_query_noop_witness :
    (handleSearch []
        { (default : UiState) with
          searchQuery := "   "
          currentPage := 7 }).currentPage
      = ({ (default : UiState) with
          searchQuery := "   "
          currentPage := 7 } : UiState).currentPage :=
  (c10_blank_query_noop []
    { (default : UiState) with
      searchQuery := "   "
      currentPage := 7 } (by decide)).2.1

end TumorTargetDb
